import Mathlib

/-!
Verification development for the `ebay` scraper repository.

The repository drives a browser session to scrape an eBay seller page.  The
parts embedded here are the pure/deterministic cores that the claims are
about:

* `src/app.rs`'s listing extractor `App::scrape_listings_from_html` together
  with its helpers `extract_text_from_selectors` and `text_contains`.  HTML
  documents are modelled as a tree of elements (tag, classes, attributes)
  and text nodes; the fixed CSS selector catalogs of the source are
  modelled as parsed selector values (compound selectors joined by the
  descendant combinator, which is the only combinator the catalogs use).
* `src/app.rs`'s event reducer `App::run` (the state mutations of each
  event arm) and key handler `App::handle_key_events`.
* `src/app.rs`'s CAPTCHA monitor loop `App::start_captcha_monitoring`.
* `src/app.rs`'s stats scrapers (`scrape_items_sold_static`,
  `scrape_feedback_static`, `scrape_follower_count_static`).
* `src/csv.rs`'s `write_listings_to_csv` merge (the `HashMap` is modelled
  as an association list with replace-on-insert; the claims about it are
  iteration-order independent, matching `HashMap`'s unspecified order).
* `src/client.rs`'s `BrowserClient::scrape_listings` dedup/sort step.

Machine floats (`f64` progress values) are modelled as rationals: every
progress literal in the source is a small decimal fraction and the claims
compare only such literals.
-/

namespace EbaySpec

/-! ## HTML document model

`scraper::Html` documents are modelled as ordered trees.  A mutual
inductive is used (instead of `children : List HNode`) so that all
functions are plain structural recursions that the kernel can evaluate. -/

mutual
inductive HNode where
  | elem (tag : String) (classes : List String) (attrs : List (String × String)) (children : HForest)
  | text (s : String)
deriving DecidableEq
inductive HForest where
  | nil
  | cons (n : HNode) (f : HForest)
deriving DecidableEq
end

/-! String operations are modelled by kernel-computable functions over the
character list of the `String`, mirroring the semantics of the Rust `str`
methods the source calls (`trim`, `to_lowercase`, `contains`,
`split_whitespace`, `join`, `parse::<u32>`, `replace(",", "")`,
`split`).  Rust's Unicode-aware whitespace/lowercase classes agree with
the modelled ones on all characters that occur in the catalogs, markers
and claims. -/

/-- Rust `str::trim`. -/
def strTrim (s : String) : String :=
  ⟨((s.toList.dropWhile Char.isWhitespace).reverse.dropWhile Char.isWhitespace).reverse⟩

/-- Rust `str::to_lowercase`. -/
def strLower (s : String) : String := ⟨s.toList.map Char.toLower⟩

/-- Rust `str::is_empty`. -/
def strEmpty (s : String) : Bool := s.toList.isEmpty

/-- Rust `[&str]::join(sep)`. -/
def joinWith (sep : String) : List String → String
  | [] => ""
  | [x] => x
  | x :: xs => x ++ sep ++ joinWith sep xs

/-- `pat` occurs as a contiguous run inside `hay`
(Rust `str::contains` with a string pattern). -/
def containsSeq [BEq α] (pat : List α) : List α → Bool
  | [] => pat.isEmpty
  | a :: rest => pat.isPrefixOf (a :: rest) || containsSeq pat rest

def strContains (hay pat : String) : Bool := containsSeq pat.toList hay.toList

/-- Rust `str::contains(char)`. -/
def strContainsChar (s : String) (c : Char) : Bool := s.toList.contains c

/-- Helper for Rust `str::split_whitespace` (accumulator holds the current
token reversed). -/
def splitWsGo : List Char → List Char → List String
  | [], acc => if acc.isEmpty then [] else [⟨acc.reverse⟩]
  | c :: rest, acc =>
    if c.isWhitespace then
      if acc.isEmpty then splitWsGo rest [] else (⟨acc.reverse⟩ : String) :: splitWsGo rest []
    else splitWsGo rest (c :: acc)

/-- Rust `str::split_whitespace`: maximal non-empty tokens. -/
def splitWs (s : String) : List String := splitWsGo s.toList []

/-- Decimal digit parse of a full character list. -/
def parseNatL (l : List Char) : Option Nat :=
  if l.isEmpty || !(l.all Char.isDigit) then none
  else some (l.foldl (fun n c => n * 10 + (c.toNat - 48)) 0)

/-- Rust `str::parse::<u32>()` (decimal digits only, bounded by
`u32::MAX`; the optional leading `+` accepted by Rust is not modelled —
no claim depends on it). -/
def parseU32 (s : String) : Option Nat :=
  match parseNatL s.toList with
  | some n => if n < 4294967296 then some n else none
  | none => none

/-- Rust `str::replace(",", "")` as the source always calls it: drop all
commas. -/
def removeCommas (s : String) : String := ⟨s.toList.filter (fun c => c ≠ ',')⟩

/-- Splits at the first occurrence of `sep`, returning the parts before
and after it, or `none` when `sep` does not occur. -/
def splitFirstL (sep : List Char) : List Char → Option (List Char × List Char)
  | [] => if sep.isEmpty then some ([], []) else none
  | c :: rest =>
    if sep.isPrefixOf (c :: rest) then some ([], (c :: rest).drop sep.length)
    else
      match splitFirstL sep rest with
      | some pr => some (c :: pr.1, pr.2)
      | none => none

/-- Text contents of all text-node descendants of a forest, in document
order. -/
def collectTextsF : HForest → List String
  | .nil => []
  | .cons (.text s) f => s :: collectTextsF f
  | .cons (.elem _ _ _ ch) f => collectTextsF ch ++ collectTextsF f

/-- Text contents of all text-node descendants of a node
(`scraper::ElementRef::text`). -/
def collectTextsN : HNode → List String
  | .text s => [s]
  | .elem _ _ _ ch => collectTextsF ch

/-- `elem.text().collect::<Vec<_>>().join(" ")` of `app.rs`. -/
def textOf (n : HNode) : String := joinWith " " (collectTextsN n)

/-- An element together with its chain of ancestor elements in the
document, outermost first.  Selector matching with the descendant
combinator consults this chain, exactly as `scraper` matches ancestors of
a candidate element. -/
structure PElem where
  anc : List HNode
  node : HNode
deriving DecidableEq

/-- All elements of a forest in document (pre-order) order, paired with
their ancestor chains.  `anc` is the chain above the forest. -/
def elemsF (anc : List HNode) : HForest → List PElem
  | .nil => []
  | .cons (.text _) f => elemsF anc f
  | .cons (.elem t c a ch) f =>
    (⟨anc, .elem t c a ch⟩ :: elemsF (anc ++ [HNode.elem t c a ch]) ch) ++ elemsF anc f

/-- All elements of a subtree, the root included. -/
def elemsN (anc : List HNode) : HNode → List PElem
  | .text _ => []
  | .elem t c a ch => ⟨anc, .elem t c a ch⟩ :: elemsF (anc ++ [HNode.elem t c a ch]) ch

/-- A compound CSS selector: optional tag name, required classes, required
exact attribute values.  These are the only features the fixed catalogs in
`scrape_listings_from_html` use. -/
structure Compound where
  tag : Option String
  classes : List String
  attrs : List (String × String)

/-- A selector of the catalogs: a chain of ancestor compounds (descendant
combinator, outermost first) and the subject compound. -/
structure Sel where
  ancs : List Compound
  subj : Compound

def lookupAttr (attrs : List (String × String)) (k : String) : Option String :=
  (attrs.find? (fun p => p.1 == k)).map (·.2)

def matchesCompound (c : Compound) : HNode → Bool
  | .text _ => false
  | .elem t cls attrs _ =>
    (match c.tag with | none => true | some tg => tg == t) &&
    c.classes.all (fun cl => cls.contains cl) &&
    c.attrs.all (fun kv => lookupAttr attrs kv.1 == some kv.2)

/-- The ancestor compounds must match some strictly nested subsequence of
the ancestor chain (standard descendant-combinator semantics; greedy
matching is complete for subsequence embedding). -/
def chainMatch : List Compound → List HNode → Bool
  | [], _ => true
  | _ :: _, [] => false
  | c :: cs, a :: rest => if matchesCompound c a then chainMatch cs rest else chainMatch (c :: cs) rest

def matchesSel (s : Sel) (p : PElem) : Bool :=
  matchesCompound s.subj p.node && chainMatch s.ancs p.anc

/-- `Html::select` over the whole document. -/
def docSelect (doc : HNode) (s : Sel) : List PElem :=
  (elemsN [] doc).filter (matchesSel s)

/-- Strict descendants of an element (`ElementRef::select` excludes the
scope element itself). -/
def descElems (p : PElem) : List PElem :=
  match p.node with
  | .text _ => []
  | .elem t c a ch => elemsF (p.anc ++ [HNode.elem t c a ch]) ch

/-- `element.select(selector)` of `scraper`: matching strict descendants
in document order. -/
def pselect (p : PElem) (s : Sel) : List PElem :=
  (descElems p).filter (matchesSel s)

/-! ## `Listing` (`src/app.rs` lines 46-105) -/

structure Listing where
  title : String
  price : String
  shipping : Option String
  condition : Option String
  watchers : Option Nat
  seller : Option String
  seller_feedback : Option String
  buy_it_now : Bool
  accepts_offers : Bool
  location : Option String
  quantity_available : Option Nat
  is_new_listing : Bool
  item_id : Option String
  url : Option String
  notes : List String
  item_specifics : List String
  description : Option String
deriving Repr, DecidableEq

/-- `impl Default for Listing`. -/
def defaultListing : Listing :=
  { title := "", price := "", shipping := none, condition := none,
    watchers := none, seller := none, seller_feedback := none,
    buy_it_now := false, accepts_offers := false, location := none,
    quantity_available := none, is_new_listing := false, item_id := none,
    url := none, notes := [], item_specifics := [], description := none }

instance : Inhabited Listing := ⟨defaultListing⟩

/-! ## Selector catalogs (`scrape_listings_from_html`, lines 895-1036)

Each entry mirrors one CSS selector string of the source, in the same
order.  All the source's selector strings parse successfully, so the
`Selector::parse` error branch (which merely skips the entry) never
fires and is not modelled. -/

/-- Container selectors, lines 895-903:
`div.su-card-container`, `div.s-item__wrapper`, `li.s-item`,
`.str-item-card`, `.item-listing-cell`, `[data-testid='item-card']`,
`.str-grid-item`. -/
def containerSelectors : List Sel := [
  ⟨[], ⟨some "div", ["su-card-container"], []⟩⟩,
  ⟨[], ⟨some "div", ["s-item__wrapper"], []⟩⟩,
  ⟨[], ⟨some "li", ["s-item"], []⟩⟩,
  ⟨[], ⟨none, ["str-item-card"], []⟩⟩,
  ⟨[], ⟨none, ["item-listing-cell"], []⟩⟩,
  ⟨[], ⟨none, [], [("data-testid", "item-card")]⟩⟩,
  ⟨[], ⟨none, ["str-grid-item"], []⟩⟩ ]

/-- Title selectors, lines 938-950. -/
def titleSelectors : List Sel := [
  ⟨[⟨none, ["s-card__title"], []⟩], ⟨none, ["su-styled-text"], []⟩⟩,
  ⟨[⟨some "div", [], [("role", "heading")]⟩], ⟨none, ["su-styled-text"], []⟩⟩,
  ⟨[⟨some "div", ["s-item__title"], []⟩], ⟨some "span", [], [("role", "heading")]⟩⟩,
  ⟨[⟨none, ["s-item__title"], []⟩], ⟨some "span", [], []⟩⟩,
  ⟨[], ⟨none, ["s-item__title"], []⟩⟩,
  ⟨[], ⟨some "h3", [], []⟩⟩,
  ⟨[], ⟨none, ["title"], []⟩⟩,
  ⟨[], ⟨none, [], [("role", "heading")]⟩⟩ ]

/-- Price selectors, lines 953-962. -/
def priceSelectors : List Sel := [
  ⟨[], ⟨none, ["s-card__price"], []⟩⟩,
  ⟨[], ⟨none, ["su-styled-text", "primary", "bold"], []⟩⟩,
  ⟨[], ⟨some "span", ["s-item__price"], []⟩⟩,
  ⟨[⟨none, ["s-item__detail--primary"], []⟩], ⟨none, ["s-item__price"], []⟩⟩,
  ⟨[], ⟨none, ["price"], []⟩⟩ ]

/-- Shipping selectors, lines 965-972. -/
def shippingSelectors : List Sel := [
  ⟨[], ⟨none, ["s-card__attribute-row"], []⟩⟩,
  ⟨[], ⟨none, ["su-styled-text"], []⟩⟩,
  ⟨[], ⟨some "span", ["s-item__shipping"], []⟩⟩,
  ⟨[], ⟨none, ["s-item__logisticsCost"], []⟩⟩ ]

/-- Condition selectors, lines 982-987. -/
def conditionSelectors : List Sel := [
  ⟨[⟨none, ["s-card__subtitle"], []⟩], ⟨none, ["su-styled-text"], []⟩⟩,
  ⟨[], ⟨some "span", ["SECONDARY_INFO"], []⟩⟩ ]

/-- Location selectors, lines 992-997. -/
def locationSelectors : List Sel := [
  ⟨[], ⟨none, ["su-styled-text"], []⟩⟩,
  ⟨[], ⟨none, ["s-item__location"], []⟩⟩ ]

/-- Seller selectors, lines 1006-1012. -/
def sellerSelectors : List Sel := [
  ⟨[⟨none, ["su-card-container__attributes__secondary"], []⟩], ⟨none, ["su-styled-text"], []⟩⟩,
  ⟨[⟨none, ["s-item__etrs-text"], []⟩], ⟨none, ["PRIMARY"], []⟩⟩,
  ⟨[], ⟨none, ["s-item__seller-info-text"], []⟩⟩ ]

/-- First "best offer" selector group, lines 1026-1030. -/
def bestOfferSelectorsA : List Sel := [
  ⟨[], ⟨none, ["su-styled-text"], []⟩⟩,
  ⟨[], ⟨none, ["s-item__dynamic"], []⟩⟩,
  ⟨[], ⟨none, ["s-item__formatBestOfferEnabled"], []⟩⟩ ]

/-- Second "or best offer" selector group, lines 1030-1033. -/
def bestOfferSelectorsB : List Sel := [
  ⟨[], ⟨none, ["su-styled-text"], []⟩⟩,
  ⟨[], ⟨none, ["s-item__dynamic"], []⟩⟩ ]

/-- Link selectors, line 1036: `a`, `.su-link`, `.s-item__link`. -/
def linkSelectors : List Sel := [
  ⟨[], ⟨some "a", [], []⟩⟩,
  ⟨[], ⟨none, ["su-link"], []⟩⟩,
  ⟨[], ⟨none, ["s-item__link"], []⟩⟩ ]

/-! ## `extract_text_from_selectors` / `text_contains` (lines 1069-1098) -/

/-- `App::extract_text_from_selectors`: for each selector in order, take
the first matching descendant, join and trim its text; the first
non-empty result wins, otherwise `None`. -/
def extract_text_from_selectors (p : PElem) : List Sel → Option String
  | [] => none
  | s :: rest =>
    match (pselect p s).head? with
    | some m =>
      let t := strTrim (textOf m.node)
      if strEmpty t then extract_text_from_selectors p rest else some t
    | none => extract_text_from_selectors p rest

/-- `App::text_contains`: some selector has some matching descendant whose
lowercased joined text contains the needle. -/
def text_contains (p : PElem) (sels : List Sel) (needle : String) : Bool :=
  sels.any (fun s => (pselect p s).any (fun m => strContains (strLower (textOf m.node)) needle))

/-! ## Building one listing from a candidate element (lines 933-1052) -/

/-- `href.split("itm/").nth(1)` then `.split('?').next()` (lines
1042-1043): the text between the first occurrence of `"itm/"` and the
following occurrence of `"itm/"` (if any), truncated at the first `'?'`. -/
def itemIdOfHref (href : String) : Option String :=
  match splitFirstL "itm/".toList href.toList with
  | some pr =>
    let seg :=
      match splitFirstL "itm/".toList pr.2 with
      | some pr2 => pr2.1
      | none => pr.2
    some ⟨seg.takeWhile (fun c => c ≠ '?')⟩
  | none => none

/-- The link-selector loop of lines 1036-1052: first selector whose first
matching descendant carries an `href` from which an item id parses wins;
yields `(item_id, url)`. -/
def linkScan (p : PElem) : List Sel → Option String × Option String
  | [] => (none, none)
  | s :: rest =>
    match (pselect p s).head? with
    | some le =>
      match le.node with
      | .elem _ _ attrs _ =>
        match lookupAttr attrs "href" with
        | some href =>
          match itemIdOfHref href with
          | some id => (some id, some ("https://www.ebay.com/itm/" ++ id))
          | none => linkScan p rest
        | none => linkScan p rest
      | .text _ => linkScan p rest
    | none => linkScan p rest

/-- Field extraction for one candidate element (the body of the `for`
loop of `scrape_listings_from_html`, lines 933-1052).  Note that
`buy_it_now`, `is_new_listing`, `watchers`, `quantity_available` and
`notes` are never assigned there and keep their `Default` values. -/
def buildListing (p : PElem) : Listing :=
  let title := (extract_text_from_selectors p titleSelectors).getD ""
  let price := (extract_text_from_selectors p priceSelectors).getD ""
  let shipping :=
    match extract_text_from_selectors p shippingSelectors with
    | some t =>
      if strContains (strLower t) "delivery" || strContains (strLower t) "shipping"
          || strContains t "$" then some t else none
    | none => none
  let condition := extract_text_from_selectors p conditionSelectors
  let location :=
    match extract_text_from_selectors p locationSelectors with
    | some t =>
      if strContains (strLower t) "located" || strContains (strLower t) "from"
      then some t else none
    | none => none
  let sellerPair : Option String × Option String :=
    match extract_text_from_selectors p sellerSelectors with
    | some t =>
      match splitWs t with
      | [] => (none, none)
      | s0 :: rest =>
        let feedback_text := joinWith " " rest
        (some s0, if strContainsChar feedback_text '%' then some feedback_text else none)
    | none => (none, none)
  let accepts := text_contains p bestOfferSelectorsA "best offer"
      || text_contains p bestOfferSelectorsB "or best offer"
  let idUrl := linkScan p linkSelectors
  { defaultListing with
    title := title, price := price, shipping := shipping,
    condition := condition, location := location,
    seller := sellerPair.1, seller_feedback := sellerPair.2,
    accepts_offers := accepts, item_id := idUrl.1, url := idUrl.2 }

/-! ## `scrape_listings_from_html` (lines 891-1066) -/

/-- First container selector whose match list is non-empty wins
(lines 905-923). -/
def firstNonemptyMatch : List (List PElem) → List PElem
  | [] => []
  | l :: rest => if l.isEmpty then firstNonemptyMatch rest else l

/-- The candidate elements the extraction loop runs over. -/
def pageCandidates (doc : HNode) : List PElem :=
  firstNonemptyMatch (containerSelectors.map (docSelect doc))

/-- The extraction loop: build each listing, keep it iff both title and
price are non-empty (lines 1054-1061). -/
def collectListings : List PElem → List Listing
  | [] => []
  | e :: es =>
    let l := buildListing e
    if !strEmpty l.title && !strEmpty l.price then l :: collectListings es
    else collectListings es

/-- `App::scrape_listings_from_html`.  The Rust function returns
`Result` but every path that is reached returns `Ok`; the value inside is
modelled. -/
def scrape_listings_from_html (doc : HNode) : List Listing :=
  collectListings (pageCandidates doc)

/-! ## Concrete sample markup

The markup of claim C5 (also the shape of the repository's own unit test
`test_scrape_listings_from_html`, first item): one `li.s-item` element
with title, price, shipping, condition and a "Buy It Now" marker
element. -/

def HForest.ofList : List HNode → HForest
  | [] => .nil
  | n :: rest => .cons n (HForest.ofList rest)

def sampleLi : HNode :=
  .elem "li" ["s-item"] [] (HForest.ofList [
    .elem "h3" ["s-item__title"] [] (.cons (.text "Sample Item Title") .nil),
    .elem "span" ["s-item__price"] [] (.cons (.text "$19.99") .nil),
    .elem "span" ["s-item__shipping"] [] (.cons (.text "+$4.99 shipping") .nil),
    .elem "span" ["SECONDARY_INFO"] [] (.cons (.text "Used") .nil),
    .elem "div" ["s-item__purchase-options-with-icon"] [] (.cons (.text "Buy It Now") .nil)])

def sampleUl : HNode := .elem "ul" ["srp-results"] [] (.cons sampleLi .nil)

def sampleItemDoc : HNode := .elem "div" [] [] (.cons sampleUl .nil)

/-- The single candidate element `li.s-item` found by the container
catalog on `sampleItemDoc`, with its ancestor chain. -/
def sampleCandidate : PElem := ⟨[sampleItemDoc, sampleUl], sampleLi⟩

/-! ## Lemmas about extraction -/

theorem strEmpty_false_iff (s : String) : strEmpty s = false ↔ s ≠ "" := by
  cases s with
  | mk data =>
    cases data <;> simp [strEmpty, List.isEmpty, String.ext_iff]

theorem mem_collectListings {l : Listing} {es : List PElem} :
    l ∈ collectListings es ↔
      ∃ e ∈ es, buildListing e = l ∧ l.title ≠ "" ∧ l.price ≠ "" := by
  induction es with
  | nil => simp [collectListings]
  | cons e es ih =>
    simp only [collectListings]
    split
    next h =>
      have h' := h
      simp only [Bool.and_eq_true, Bool.not_eq_true'] at h'
      have h1 : (buildListing e).title ≠ "" := (strEmpty_false_iff _).mp h'.1
      have h2 : (buildListing e).price ≠ "" := (strEmpty_false_iff _).mp h'.2
      constructor
      · intro hmem
        rcases List.mem_cons.mp hmem with hl | hl
        · subst hl
          exact ⟨e, List.mem_cons_self e es, rfl, h1, h2⟩
        · obtain ⟨e', he', hb, ht, hp⟩ := ih.mp hl
          exact ⟨e', List.mem_cons_of_mem e he', hb, ht, hp⟩
      · rintro ⟨e', he', hb, ht, hp⟩
        rcases List.mem_cons.mp he' with hl | hl
        · subst hl
          rw [← hb]
          exact List.mem_cons_self _ _
        · exact List.mem_cons_of_mem _ (ih.mpr ⟨e', hl, hb, ht, hp⟩)
    next h =>
      constructor
      · intro hmem
        obtain ⟨e', he', hb, ht, hp⟩ := ih.mp hmem
        exact ⟨e', List.mem_cons_of_mem e he', hb, ht, hp⟩
      · rintro ⟨e', he', hb, ht, hp⟩
        rcases List.mem_cons.mp he' with hl | hl
        · exfalso
          apply h
          subst hl
          rw [hb]
          simp [Bool.and_eq_true, Bool.not_eq_true',
            (strEmpty_false_iff _).mpr ht, (strEmpty_false_iff _).mpr hp]
        · exact ih.mpr ⟨e', hl, hb, ht, hp⟩

/-- C1: for every markup input, `scrape_listings_from_html` retains a
candidate listing iff both the fallback-resolved title and the
fallback-resolved price are non-empty; a candidate for which either
resolves to empty is omitted (`src/app.rs` lines 1054-1061). -/
theorem scrape_retains_iff_title_and_price_nonempty (doc : HNode) (l : Listing) :
    l ∈ scrape_listings_from_html doc ↔
      ∃ e ∈ pageCandidates doc, buildListing e = l ∧ l.title ≠ "" ∧ l.price ≠ "" :=
  mem_collectListings

/-- C1 witness: on the concrete sample page, the single candidate's
listing has non-empty title and price and is retained. -/
theorem scrape_retains_iff_witness :
    buildListing sampleCandidate ∈ scrape_listings_from_html sampleItemDoc :=
  (scrape_retains_iff_title_and_price_nonempty sampleItemDoc (buildListing sampleCandidate)).mpr
    ⟨sampleCandidate, by decide, rfl, by decide, by decide⟩

/-! ## C5: concrete extraction scenario -/

/-- The listing the code actually produces on the C5 markup.  Every field
the claim names matches except `buy_it_now`, which stays at its `Default`
value `false`: `scrape_listings_from_html` never assigns `buy_it_now`
(only `accepts_offers` is derived, line 1026). -/
def c5ActualListing : Listing :=
  { defaultListing with
    title := "Sample Item Title", price := "$19.99",
    shipping := some "+$4.99 shipping", condition := some "Used" }

/-- C5 (evaluation of the code at the claim's input): on the claim's
markup the extractor returns exactly one listing whose title, price,
shipping and condition match the claim, but whose `buy_it_now` is
`false`.  The repository's own unit test
`test_scrape_listings_from_html` asserts `buy_it_now` (and
`is_new_listing`, `watchers`) on this very markup, so the code
contradicts its own test: the "Buy It Now" marker element is never
consulted. -/
theorem scrape_sample_markup_buy_it_now_false :
    scrape_listings_from_html sampleItemDoc = [c5ActualListing] ∧
      c5ActualListing.title = "Sample Item Title" ∧
      c5ActualListing.price = "$19.99" ∧
      c5ActualListing.shipping = some "+$4.99 shipping" ∧
      c5ActualListing.condition = some "Used" ∧
      c5ActualListing.buy_it_now = false :=
  ⟨by decide, rfl, rfl, rfl, rfl, rfl⟩

/-! ## C6: first-selector-wins characterisation -/

/-- What one selector of a catalog yields in
`extract_text_from_selectors`: the trimmed joined text of its first
matching descendant, provided that is non-empty. -/
def firstNonemptyText (p : PElem) (s : Sel) : Option String :=
  match (pselect p s).head? with
  | some m =>
    let t := strTrim (textOf m.node)
    if strEmpty t then none else some t
  | none => none

/-- C6: `extract_text_from_selectors` returns the trimmed joined text of
the first selector in catalog order that matches and yields non-empty
trimmed text (`List.findSome?` over the catalog), and `none` exactly when
no selector yields non-empty text.  As a pure function of its input it is
identical across repeated invocations. -/
theorem extract_text_first_selector_wins (p : PElem) (sels : List Sel) :
    extract_text_from_selectors p sels = sels.findSome? (firstNonemptyText p) ∧
      (extract_text_from_selectors p sels = none ↔
        ∀ s ∈ sels, firstNonemptyText p s = none) := by
  have key : extract_text_from_selectors p sels = sels.findSome? (firstNonemptyText p) := by
    induction sels with
    | nil => rfl
    | cons s rest ih =>
      simp only [extract_text_from_selectors, List.findSome?_cons, firstNonemptyText]
      cases hh : (pselect p s).head? with
      | none => simpa [hh] using ih
      | some m =>
        by_cases he : strEmpty (strTrim (textOf m.node)) = true
        · simpa [hh, he] using ih
        · simp [hh, Bool.of_not_eq_true he]
  exact ⟨key, by rw [key]; exact List.findSome?_eq_none_iff⟩

/-- C6 witness: on the concrete sample element only the fifth title
selector (`.s-item__title`) matches, and its text is returned. -/
theorem extract_text_first_selector_wins_witness :
    extract_text_from_selectors sampleCandidate titleSelectors = some "Sample Item Title" ∧
      titleSelectors.findSome? (firstNonemptyText sampleCandidate) = some "Sample Item Title" :=
  ⟨by decide,
   by rw [← (extract_text_first_selector_wins sampleCandidate titleSelectors).1]; decide⟩

/-! ## C3: CAPTCHA monitor (`App::start_captcha_monitoring`, lines 679-714) -/

inductive MonitorEvent where
  | captchaDetected
  | captchaResolved
deriving Repr, DecidableEq

/-- Line 688: the polled URL, lowercased, contains `"captcha"`. -/
def urlHasCaptcha (url : String) : Bool := strContains (strLower url) "captcha"

/-- The monitor loop over the finite sequence of successfully polled
URLs, threading the local `captcha_detected` flag (initially `false`);
returns the events sent, in order.  The loop breaks right after sending
`CaptchaResolved`; exhausting the poll list without a break models
`current_url` erring (the `else` at line 707: break with no event). -/
def monitorEvents : List String → Bool → List MonitorEvent
  | [], _ => []
  | url :: rest, detected =>
    let has := urlHasCaptcha url
    if has && !detected then .captchaDetected :: monitorEvents rest true
    else if !has && detected then [.captchaResolved]
    else if !has && !detected then [.captchaResolved]
    else monitorEvents rest detected

/-- C3: a poll sequence free of the challenge marker produces exactly one
`CaptchaResolved` and no `CaptchaDetected` (the monitor resolves at the
very first clear poll and terminates), and the sequence
[marker, marker, clear] produces exactly one `CaptchaDetected` followed
by exactly one `CaptchaResolved`. -/
theorem captcha_monitor_edge_triggered :
    (∀ urls : List String, urls ≠ [] → (∀ u ∈ urls, urlHasCaptcha u = false) →
      monitorEvents urls false = [.captchaResolved]) ∧
    monitorEvents
      ["https://www.ebay.com/splashui/captcha",
       "https://www.ebay.com/splashui/captcha",
       "https://www.ebay.com/usr/thriftngo5"] false
      = [.captchaDetected, .captchaResolved] := by
  constructor
  · intro urls hne hclear
    cases urls with
    | nil => exact absurd rfl hne
    | cons u rest =>
      have hu : urlHasCaptcha u = false := hclear u (List.mem_cons_self u rest)
      simp [monitorEvents, hu]
  · decide

/-- C3 witness: a single clear poll yields exactly one resolution. -/
theorem captcha_monitor_edge_triggered_witness :
    monitorEvents ["https://www.ebay.com/usr/thriftngo5"] false
      = [MonitorEvent.captchaResolved] :=
  captcha_monitor_edge_triggered.1 _ (by simp) (by decide)

/-! ## C4: progress values applied by the reducer in one successful run

The `f64` progress literals are modelled as rationals.  The emission
lists below are read off the source per producer; `runProgress` is their
channel (FIFO) order for a run without a CAPTCHA interruption: the stats
task sends its final `SetProgress(1.0, "✅ Scraping complete!")`
back-to-back after `ScrapeListings` (lines 371-382, no await between the
two sends), so it is enqueued before the reducer handles
`ScrapeListings`/`EnrichListings` and before the enrichment task starts
emitting. -/

/-- `App::connect` (lines 733-757): 0.1, 0.2, 0.3. -/
def connectProgress : List ℚ := [1/10, 2/10, 3/10]

/-- The stats task spawned by the `CaptchaResolved` arm (lines 290-387):
0.4, 0.6, 0.8, 0.9, 0.95, then 1.0 right after `ScrapeListings`. -/
def statsTaskProgress : List ℚ := [4/10, 6/10, 8/10, 9/10, 95/100, 1]

/-- The `EnrichListings` task (lines 402-441) over `n` listings: 0.95,
then `0.95 + 0.04 * (i / n)` for each listing index `i`. -/
def enrichTaskProgress (n : Nat) : List ℚ :=
  95/100 :: (List.range n).map (fun i => 95/100 + (4/100) * ((i : ℚ) / (n : ℚ)))

/-- The full sequence of `SetProgress` values applied by the reducer in
one successful run with `n` listings; the trailing 1.0 is the
`EnrichedListings` arm's own send (line 466). -/
def runProgress (n : Nat) : List ℚ :=
  connectProgress ++ statsTaskProgress ++ enrichTaskProgress n ++ [1]

/-- C4 (evaluation of the code on a successful run with one listing): the
final progress value is 1.0, but the sequence is NOT non-decreasing — the
stats task's premature `SetProgress(1.0, "✅ Scraping complete!")` is
applied before the enrichment task resets progress to 0.95, contradicting
the claimed monotonicity (and the 1.0 message's own meaning). -/
theorem progress_final_one_but_not_monotone :
    (runProgress 1).getLast? = some 1 ∧ ¬ List.Chain' (· ≤ ·) (runProgress 1) := by
  have hlist : runProgress 1 =
      [1/10, 2/10, 3/10, 4/10, 6/10, 8/10, 9/10, 95/100, 1,
       95/100, 95/100 + 4/100 * ((0 : ℚ) / (1 : ℚ)), 1] := by
    simp [runProgress, connectProgress, statsTaskProgress, enrichTaskProgress,
      List.range_succ]
  constructor
  · rw [hlist]
    rfl
  · intro hchain
    rw [hlist] at hchain
    simp only [List.chain'_cons] at hchain
    have h1 : ¬ ((1 : ℚ) ≤ 95/100) := by norm_num
    exact h1 hchain.2.2.2.2.2.2.2.2.1

/-! ## C8: stats scrapers (`src/app.rs` lines 782-864)

The outcome of one `wait().at_most(2s).for_element(..)` lookup plus the
subsequent `text()` read is modelled as `Option (Option String)`:
`none` = element absent or the wait timed out (the `Err` branch);
`some none` = element found but the `text()` round trip itself failed
(its `?` would propagate — not one of the claim's enumerated outcomes);
`some (some t)` = element found with text `t`. -/

def scrape_items_sold_static : Option (Option String) → Except String Nat
  | none => .ok 0
  | some none => .error "text read failed"
  | some (some t) => .ok ((parseU32 (removeCommas t)).getD 0)

def scrape_feedback_static : Option (Option String) → Except String String
  | none => .ok ""
  | some none => .error "text read failed"
  | some (some t) => .ok t

def scrape_follower_count_static : Option (Option String) → Except String Nat
  | none => .ok 0
  | some none => .error "text read failed"
  | some (some t) => .ok ((parseU32 (removeCommas ((splitWs t).headD "0"))).getD 0)

/-- C8: for every enumerated lookup outcome (found with readable text,
absent, timed out — and, for the parsers, unparsable text) the three
stats scrapers return `Ok`, with the default value (0 or "") on
absence/timeout and on parse failure. -/
theorem stats_scrapers_ok_with_defaults :
    (∀ r : Option (Option String), r ≠ some none →
      (∃ v, scrape_items_sold_static r = .ok v) ∧
      (∃ v, scrape_feedback_static r = .ok v) ∧
      (∃ v, scrape_follower_count_static r = .ok v)) ∧
    scrape_items_sold_static none = .ok 0 ∧
    scrape_feedback_static none = .ok "" ∧
    scrape_follower_count_static none = .ok 0 ∧
    (∀ t, parseU32 (removeCommas t) = none →
      scrape_items_sold_static (some (some t)) = .ok 0) ∧
    (∀ t, parseU32 (removeCommas ((splitWs t).headD "0")) = none →
      scrape_follower_count_static (some (some t)) = .ok 0) := by
  refine ⟨?_, rfl, rfl, rfl, ?_, ?_⟩
  · rintro (_ | (_ | t)) hr
    · exact ⟨⟨0, rfl⟩, ⟨"", rfl⟩, ⟨0, rfl⟩⟩
    · exact absurd rfl hr
    · exact ⟨⟨_, rfl⟩, ⟨t, rfl⟩, ⟨_, rfl⟩⟩
  · intro t ht
    simp only [scrape_items_sold_static, ht, Option.getD_none]
  · intro t ht
    simp only [scrape_follower_count_static, ht, Option.getD_none]

/-- C8 witness: unparsable texts yield the defaults via the theorem. -/
theorem stats_scrapers_ok_with_defaults_witness :
    scrape_items_sold_static (some (some "1,234 sold")) = .ok 0 ∧
      scrape_follower_count_static (some (some "n/a followers")) = .ok 0 :=
  ⟨stats_scrapers_ok_with_defaults.2.2.2.2.1 "1,234 sold" (by decide),
   stats_scrapers_ok_with_defaults.2.2.2.2.2 "n/a followers" (by decide)⟩

/-! ## Reducer state (`App`, lines 129-194) and its event handling

`App::run` (lines 203-489) is a single-consumer loop: each event arm
mutates the state and possibly spawns tasks/sends further events.  Only
the state mutations are modelled here; the events producing the payloads
are constrained where a claim needs it (`PipelineReach` below).  Arms
that mutate nothing (Connect, ClientReady, Init, GeckodriverStarted,
WebDriverConnected, NavigateToUrl, NavigationComplete, EnrichListings,
ClickSeeAll) have no message; the three error arms, which only set
`progress_message`, are merged into `errorMessage`. -/

inductive AppState where
  | loading
  | running
deriving Repr, DecidableEq

inductive ScrollViewMode where
  | paragraph
  | table
deriving Repr, DecidableEq

structure App where
  running : Bool
  state : AppState
  progress : ℚ
  progress_message : String
  feedback_score : Option String
  items_sold : Option Nat
  follower_count : Option Nat
  captcha_detected : Bool
  waiting_for_user_input : Bool
  listings : List Listing
  selected_listing_index : Nat
  scroll_offset : Nat
  scroll_view_mode : ScrollViewMode
  paragraph_scroll_offset : Nat
  vertical_scroll : Nat
  section_locked : Bool
deriving Repr, DecidableEq

/-- `impl Default for App` (lines 170-194); `vertical_scroll` is the
`ScrollState` field. -/
def App.initial : App :=
  { running := true, state := .loading, progress := 0, progress_message := "",
    feedback_score := none, items_sold := none, follower_count := none,
    captcha_detected := false, waiting_for_user_input := false, listings := [],
    selected_listing_index := 0, scroll_offset := 0, scroll_view_mode := .paragraph,
    paragraph_scroll_offset := 0, vertical_scroll := 0, section_locked := false }

/-- The keys `handle_key_events` (lines 492-672) reacts to with state
mutations.  `q`/`Esc`/`Ctrl-C` only send `Quit` (modelled as the `quit`
message) and `i` only spawns a browser; neither mutates state. -/
inductive KeyMsg where
  | down
  | up
  | pageDown
  | pageUp
  | home
  | endKey
  | enter
  | tab
deriving Repr, DecidableEq

/-- `App::handle_key_events`.  Rust `usize::saturating_sub` is `Nat`
subtraction.  `visible_rows = 25` throughout. -/
def handleKey (a : App) : KeyMsg → App
  | .enter => { a with section_locked := !a.section_locked }
  | .down =>
    if a.section_locked then
      match a.scroll_view_mode with
      | .paragraph => { a with paragraph_scroll_offset := a.paragraph_scroll_offset + 1 }
      | .table =>
        if !a.listings.isEmpty && a.selected_listing_index < a.listings.length - 1 then
          let idx := a.selected_listing_index + 1
          { a with
              selected_listing_index := idx,
              scroll_offset := if idx ≥ a.scroll_offset + 25 then idx - 25 + 1 else a.scroll_offset }
        else a
    else { a with vertical_scroll := a.vertical_scroll + 1 }
  | .up =>
    if a.section_locked then
      match a.scroll_view_mode with
      | .paragraph => { a with paragraph_scroll_offset := a.paragraph_scroll_offset - 1 }
      | .table =>
        if a.selected_listing_index > 0 then
          let idx := a.selected_listing_index - 1
          { a with
              selected_listing_index := idx,
              scroll_offset := if idx < a.scroll_offset then idx else a.scroll_offset }
        else a
    else { a with vertical_scroll := a.vertical_scroll - 1 }
  | .pageDown =>
    if a.section_locked then
      match a.scroll_view_mode with
      | .paragraph => { a with paragraph_scroll_offset := a.paragraph_scroll_offset + 10 }
      | .table =>
        if !a.listings.isEmpty then
          let idx := min (a.selected_listing_index + 25) (a.listings.length - 1)
          { a with
              selected_listing_index := idx,
              scroll_offset := if idx ≥ a.scroll_offset + 25 then idx - 25 + 1 else a.scroll_offset }
        else a
    else { a with vertical_scroll := a.vertical_scroll + 10 }
  | .pageUp =>
    if a.section_locked then
      match a.scroll_view_mode with
      | .paragraph => { a with paragraph_scroll_offset := a.paragraph_scroll_offset - 10 }
      | .table =>
        if !a.listings.isEmpty then
          let idx := a.selected_listing_index - 25
          { a with
              selected_listing_index := idx,
              scroll_offset := if idx < a.scroll_offset then idx else a.scroll_offset }
        else a
    else { a with vertical_scroll := a.vertical_scroll - 10 }
  | .home =>
    if a.section_locked then
      match a.scroll_view_mode with
      | .paragraph => { a with paragraph_scroll_offset := 0 }
      | .table =>
        if !a.listings.isEmpty then
          { a with selected_listing_index := 0, scroll_offset := 0 }
        else a
    else { a with vertical_scroll := 0 }
  | .endKey =>
    if a.section_locked then
      match a.scroll_view_mode with
      | .paragraph => { a with paragraph_scroll_offset := 50 }
      | .table =>
        if !a.listings.isEmpty then
          { a with
              selected_listing_index := a.listings.length - 1,
              scroll_offset := if a.listings.length > 25 then a.listings.length - 25 else 0 }
        else a
    else { a with vertical_scroll := 1000 }
  | .tab =>
    if !a.section_locked then
      match a.scroll_view_mode with
      | .paragraph => { a with scroll_view_mode := .table }
      | .table => { a with scroll_view_mode := .paragraph }
    else a

/-- The state-mutating events of the reducer. -/
inductive Msg where
  | quit
  | setProgress (p : ℚ) (msg : String)
  | scrapeFeedback (s : String)
  | scrapeItemsSold (n : Nat)
  | scrapeFollowerCount (n : Nat)
  | captchaDetected
  | captchaResolved
  | scrapingComplete
  | scrapeListings (ls : List Listing)
  | enrichedListings (ls : List Listing)
  | errorMessage (s : String)
  | key (k : KeyMsg)
deriving Repr, DecidableEq

/-- One step of the reducer (`App::run`'s match, state mutations only). -/
def applyMsg (a : App) : Msg → App
  | .quit => { a with running := false }
  | .setProgress p msg => { a with progress := p, progress_message := msg }
  | .scrapeFeedback s => { a with feedback_score := some s }
  | .scrapeItemsSold n => { a with items_sold := some n }
  | .scrapeFollowerCount n => { a with follower_count := some n }
  | .captchaDetected => { a with captcha_detected := true, waiting_for_user_input := true }
  | .captchaResolved => { a with captcha_detected := false, waiting_for_user_input := false }
  | .scrapingComplete => { a with state := .running }
  | .scrapeListings ls =>
    { a with listings := ls, selected_listing_index := 0, scroll_offset := 0 }
  | .enrichedListings ls =>
    if a.selected_listing_index ≥ ls.length && !ls.isEmpty then
      let idx := ls.length - 1
      { a with
          listings := ls, selected_listing_index := idx,
          scroll_offset := if idx ≥ 19 then idx - 19 else 0 }
    else { a with listings := ls }
  | .errorMessage s => { a with progress_message := s }
  | .key k => handleKey a k

def applyMsgs (a : App) (ms : List Msg) : App := ms.foldl applyMsg a

/-! ## C7: selection clamp -/

/-- A minimal accepted listing used to build concrete traces. -/
def miniListing : Listing := { defaultListing with
    title := "x", price := "$1" }

/-- The event trace refuting C7 as stated: switch to the table view, lock
it, load three listings, move the selection to index 2, then apply
`EnrichedListings` with an empty payload.  The `!self.listings.is_empty()`
guard (line 446) skips the clamp, leaving the index at 2 over an empty
collection (the claim demands `max(0-1,0) = 0`). -/
def c7Trace : List Msg :=
  [.key .tab, .key .enter,
   .scrapeListings [miniListing, miniListing, miniListing],
   .key .down, .key .down,
   .enrichedListings []]

/-- C7 counterexample: after the trace the collection is empty but the
selection index is 2, not `max(L-1, 0) = 0`, refuting both halves of the
claim ("index afterwards equals max(L-1,0)" and "index < len or 0 when
empty"). -/
theorem selection_clamp_counterexample :
    (applyMsgs App.initial c7Trace).listings = [] ∧
      (applyMsgs App.initial c7Trace).selected_listing_index = 2 :=
  ⟨rfl, rfl⟩

/-- The invariant that actually holds: the index is in range unless the
collection is empty (with no constraint on the index then). -/
def selectionInvariant (a : App) : Prop :=
  a.listings.length = 0 ∨ a.selected_listing_index < a.listings.length

instance (a : App) : Decidable (selectionInvariant a) := by
  unfold selectionInvariant
  infer_instance

theorem handleKey_listings (a : App) (k : KeyMsg) :
    (handleKey a k).listings = a.listings := by
  cases k <;> simp only [handleKey] <;> (repeat' split) <;> rfl

/-- C7 amended: `EnrichedListings` with a non-empty payload of length L
clamps an out-of-range index to `L-1 = max(L-1,0)`; with an empty payload
it leaves the index unchanged; `ScrapeListings` always resets the index
to 0; and every reducer step preserves `index < len(listings) ∨ listings
empty`. -/
theorem selection_clamp_amended :
    (∀ (a : App) (ls : List Listing), ls ≠ [] → a.selected_listing_index ≥ ls.length →
      (applyMsg a (.enrichedListings ls)).selected_listing_index = ls.length - 1) ∧
    (∀ a : App, (applyMsg a (.enrichedListings [])).selected_listing_index
      = a.selected_listing_index) ∧
    (∀ (a : App) (ls : List Listing),
      (applyMsg a (.scrapeListings ls)).selected_listing_index = 0) ∧
    (∀ (a : App) (m : Msg), selectionInvariant a → selectionInvariant (applyMsg a m)) := by
  refine ⟨?_, ?_, ?_, ?_⟩
  · intro a ls hne hge
    have hcond : (a.selected_listing_index ≥ ls.length && !ls.isEmpty) = true := by
      simp [hge, List.isEmpty_iff, hne]
    simp only [applyMsg, hcond, if_pos]
  · intro a
    simp [applyMsg]
  · intro a ls
    rfl
  · intro a m h
    cases m with
    | quit => exact h
    | setProgress p msg => exact h
    | scrapeFeedback s => exact h
    | scrapeItemsSold n => exact h
    | scrapeFollowerCount n => exact h
    | captchaDetected => exact h
    | captchaResolved => exact h
    | scrapingComplete => exact h
    | errorMessage s => exact h
    | scrapeListings ls =>
      cases ls with
      | nil => exact Or.inl rfl
      | cons x xs => exact Or.inr (by simp [applyMsg])
    | enrichedListings ls =>
      simp only [applyMsg]
      split
      next hcond =>
        rcases Bool.and_eq_true .. |>.mp hcond with ⟨_, hne⟩
        have hlen : ls.length ≠ 0 := by
          simpa [List.isEmpty_iff, List.length_eq_zero] using hne
        exact Or.inr (by simp; omega)
      next hcond =>
        by_cases hnil : ls.length = 0
        · exact Or.inl hnil
        · refine Or.inr ?_
          have hlt : a.selected_listing_index < ls.length := by
            by_contra hge
            push_neg at hge
            apply hcond
            have hne : ls ≠ [] := fun hh => hnil (by simp [hh])
            simp [Bool.and_eq_true, ge_iff_le, hge, List.isEmpty_iff, hne]
          exact hlt
    | key k =>
      show selectionInvariant (handleKey a k)
      rcases h with h | h
      · exact Or.inl (by rw [handleKey_listings]; exact h)
      · cases k <;>
          unfold selectionInvariant <;>
          simp only [handleKey] <;>
          (repeat' split) <;>
          simp_all [List.isEmpty_iff, List.length_eq_zero, Bool.and_eq_true,
            Bool.not_eq_true', List.isEmpty_eq_false] <;>
          omega

/-- Concrete state for the C7 witness. -/
def c7WitnessState : App := { App.initial with
    selected_listing_index := 5 }

/-- C7 witness: a one-element payload clamps an out-of-range index to 0,
and `ScrapeListings` from the initial state satisfies the invariant. -/
theorem selection_clamp_amended_witness :
    (applyMsg c7WitnessState (.enrichedListings [miniListing])).selected_listing_index = 0 ∧
      selectionInvariant (applyMsg App.initial (.scrapeListings [miniListing])) :=
  ⟨selection_clamp_amended.1 c7WitnessState [miniListing] (by decide) (by decide),
   selection_clamp_amended.2.2.2 App.initial (.scrapeListings [miniListing]) (Or.inl rfl)⟩

/-! ## C9: the title/price invariant of the listing collection -/

/-- Per-listing enrichment (the body of the `for` loop at lines 416-436):
a listing with a usable `item_id` receives `item_specifics` and
`description` from the outcome of `scrape_item_details` (indexed by
position; `none` = the `Err` branch, which leaves the listing unchanged);
a listing without `item_id` is untouched.  Title and price are never
written. -/
def enrichOne (oracle : Nat → Option (List String × Option String)) (i : Nat) (l : Listing) : Listing :=
  if l.item_id.isSome then
    match oracle i with
    | some r => { l with
        item_specifics := r.1, description := r.2 }
    | none => l
  else l

def enrichFrom (oracle : Nat → Option (List String × Option String)) : Nat → List Listing → List Listing
  | _, [] => []
  | i, l :: ls => enrichOne oracle i l :: enrichFrom oracle (i + 1) ls

/-- The `EnrichListings` task (lines 402-441) over the cloned listing
collection. -/
def enrichListings (ls : List Listing) (oracle : Nat → Option (List String × Option String)) : List Listing :=
  enrichFrom oracle 0 ls

def Msg.carriesListings : Msg → Bool
  | .scrapeListings _ => true
  | .enrichedListings _ => true
  | _ => false

/-- States reachable in the real pipeline: `ScrapeListings` payloads come
from `scrape_listings_from_html` (via `scrape_active_listings`), and
`EnrichedListings` payloads are the enrichment of the collection held
when `EnrichListings` was handled — no event between the two touches the
collection, so that is the current collection.  All other events are
unconstrained. -/
inductive PipelineReach : App → Prop where
  | init : PipelineReach App.initial
  | stepScrape {a : App} (doc : HNode) : PipelineReach a →
      PipelineReach (applyMsg a (.scrapeListings (scrape_listings_from_html doc)))
  | stepEnriched {a : App} (oracle : Nat → Option (List String × Option String)) :
      PipelineReach a →
      PipelineReach (applyMsg a (.enrichedListings (enrichListings a.listings oracle)))
  | stepOther {a : App} (m : Msg) : m.carriesListings = false → PipelineReach a →
      PipelineReach (applyMsg a m)

theorem enrichOne_title_price (oracle : Nat → Option (List String × Option String))
    (i : Nat) (l : Listing) :
    (enrichOne oracle i l).title = l.title ∧ (enrichOne oracle i l).price = l.price := by
  unfold enrichOne
  (repeat' split) <;> exact ⟨rfl, rfl⟩

theorem mem_enrichFrom {l : Listing} {oracle : Nat → Option (List String × Option String)}
    {ls : List Listing} : ∀ {i : Nat}, l ∈ enrichFrom oracle i ls →
      ∃ l0 ∈ ls, l.title = l0.title ∧ l.price = l0.price := by
  induction ls with
  | nil => intro i hl; simp [enrichFrom] at hl
  | cons x xs ih =>
    intro i hl
    rcases List.mem_cons.mp hl with hl | hl
    · exact ⟨x, List.mem_cons_self x xs,
        by rw [hl]; exact (enrichOne_title_price oracle i x).1,
        by rw [hl]; exact (enrichOne_title_price oracle i x).2⟩
    · obtain ⟨l0, hm, h1, h2⟩ := ih hl
      exact ⟨l0, List.mem_cons_of_mem x hm, h1, h2⟩

theorem applyMsg_listings_other {a : App} {m : Msg} (hm : m.carriesListings = false) :
    (applyMsg a m).listings = a.listings := by
  cases m <;> simp_all [applyMsg, Msg.carriesListings, handleKey_listings]

theorem applyMsg_enriched_listings (a : App) (ls : List Listing) :
    (applyMsg a (.enrichedListings ls)).listings = ls := by
  simp only [applyMsg]
  split <;> rfl

/-- C9: in every pipeline-reachable reducer state, every listing in the
collection has non-empty title and non-empty price: listings only enter
through `ScrapeListings` (whose payload passed the acceptance filter of
`scrape_listings_from_html`) or `EnrichedListings` (whose payload only
rewrites `item_specifics`/`description` of already-accepted listings). -/
theorem reducer_listings_title_price_nonempty {a : App} (h : PipelineReach a) :
    ∀ l ∈ a.listings, l.title ≠ "" ∧ l.price ≠ "" := by
  induction h with
  | init => intro l hl; simp [App.initial] at hl
  | stepScrape doc _ ih =>
    intro l hl
    have hmem : l ∈ scrape_listings_from_html doc := hl
    obtain ⟨e, _, _, ht, hp⟩ := mem_collectListings.mp hmem
    exact ⟨ht, hp⟩
  | stepEnriched oracle _ ih =>
    intro l hl
    rw [applyMsg_enriched_listings] at hl
    obtain ⟨l0, hm, h1, h2⟩ := mem_enrichFrom hl
    obtain ⟨ht, hp⟩ := ih l0 hm
    exact ⟨by rw [h1]; exact ht, by rw [h2]; exact hp⟩
  | stepOther m hm _ ih =>
    intro l hl
    rw [applyMsg_listings_other hm] at hl
    exact ih l hl

/-- The state after scraping the sample page from the initial state. -/
def c9State : App := applyMsg App.initial (.scrapeListings (scrape_listings_from_html sampleItemDoc))

/-- C9 witness: the concrete reachable state holds exactly the sample
listing, and the theorem yields its non-empty title and price. -/
theorem reducer_listings_title_price_nonempty_witness :
    c9State.listings = [c5ActualListing] ∧
      c5ActualListing.title ≠ "" ∧ c5ActualListing.price ≠ "" :=
  ⟨by decide,
   reducer_listings_title_price_nonempty
     (PipelineReach.stepScrape sampleItemDoc PipelineReach.init) c5ActualListing (by decide)⟩

/-! ## `src/client.rs` / `src/csv.rs`: the CLI scraper and the persisted store

`client.rs` defines its own flat `Listing` (five string fields); `csv.rs`
mirrors it as `CsvListing`.  They are modelled in the `Client`
sub-namespace. -/

namespace Client

structure Listing where
  title : String
  item_id : String
  price : String
  views : String
  watchers : String
deriving Repr, DecidableEq

/-- `csv.rs` lines 10-17. -/
structure CsvListing where
  title : String
  item_id : String
  price : String
  views : String
  watchers : String
deriving Repr, DecidableEq

/-- `impl From<&Listing> for CsvListing` (`csv.rs` lines 20-30). -/
def csvOfListing (l : Listing) : CsvListing :=
  ⟨l.title, l.item_id, l.price, l.views, l.watchers⟩

/-! The `HashMap<String, CsvListing>` of `write_listings_to_csv` is
modelled as an association list whose insert removes any existing binding
of the key and conses the new one — observationally the same map; every
claim about the store is independent of row order, matching the
`HashMap`'s unspecified iteration order. -/

def insertKV (m : List (String × CsvListing)) (k : String) (v : CsvListing) :
    List (String × CsvListing) :=
  (k, v) :: m.filter (fun p => p.1 ≠ k)

def lookupKV (m : List (String × CsvListing)) (k : String) : Option CsvListing :=
  (m.find? (fun p => p.1 == k)).map (·.2)

/-- Loading the existing rows (`csv.rs` lines 38-45): insert each parsed
row keyed by its `item_id`. -/
def loadMap (rows : List CsvListing) : List (String × CsvListing) :=
  rows.foldl (fun m e => insertKV m e.item_id e) []

/-- Overlaying the new listings (`csv.rs` lines 48-51). -/
def mergeMap (rows : List CsvListing) (newListings : List Listing) :
    List (String × CsvListing) :=
  newListings.foldl (fun m l => insertKV m l.item_id (csvOfListing l)) (loadMap rows)

/-- `write_listings_to_csv` (`csv.rs` lines 33-70): the rows written back
are the map's values.  `rows` are the parsed rows of the existing store
(`[]` when the file does not exist). -/
def write_listings_to_csv (rows : List CsvListing) (newListings : List Listing) :
    List CsvListing :=
  (mergeMap rows newListings).map (·.2)

/-- The last new listing carrying `id` (the one whose insert wins). -/
def lastWith (newListings : List Listing) (id : String) : Option Listing :=
  newListings.reverse.find? (fun l => l.item_id == id)

/-- The last existing row carrying `id` (what loading leaves for `id`). -/
def lastRowWith (rows : List CsvListing) (id : String) : Option CsvListing :=
  rows.reverse.find? (fun r => r.item_id == id)

/-! ### Map lemmas -/

theorem find?_congr_of_mem {α : Type} {p q : α → Bool} :
    ∀ {l : List α}, (∀ x ∈ l, p x = q x) → l.find? p = l.find? q := by
  intro l
  induction l with
  | nil => intro _; rfl
  | cons x xs ih =>
    intro h
    have hx := h x (List.mem_cons_self x xs)
    simp only [List.find?_cons, hx]
    cases hq : q x with
    | true => rfl
    | false => exact ih (fun y hy => h y (List.mem_cons_of_mem x hy))

theorem find?_filter_ne (m : List (String × CsvListing)) {k k' : String} (h : k' ≠ k) :
    (m.filter (fun p => p.1 ≠ k)).find? (fun p => p.1 == k')
      = m.find? (fun p => p.1 == k') := by
  rw [List.find?_filter]
  apply find?_congr_of_mem
  intro x _
  by_cases hx : x.1 = k'
  · simp [hx, h]
  · simp [hx]

theorem lookup_insertKV (m : List (String × CsvListing)) (k : String) (v : CsvListing)
    (k' : String) :
    lookupKV (insertKV m k v) k' = if k' = k then some v else lookupKV m k' := by
  by_cases h : k' = k
  · subst h
    unfold lookupKV insertKV
    rw [List.find?_cons_of_pos _ (by simp)]
    simp
  · unfold lookupKV insertKV
    rw [List.find?_cons_of_neg _ (by simp [Ne.symm h]), find?_filter_ne m h, if_neg h]

theorem lookup_foldl_insertKV {α : Type} (key : α → String) (val : α → CsvListing) :
    ∀ (l : List α) (m : List (String × CsvListing)) (k : String),
      lookupKV (l.foldl (fun acc x => insertKV acc (key x) (val x)) m) k
        = match l.reverse.find? (fun x => key x == k) with
          | some x => some (val x)
          | none => lookupKV m k := by
  intro l
  induction l with
  | nil => intro m k; rfl
  | cons x xs ih =>
    intro m k
    simp only [List.foldl_cons, List.reverse_cons]
    rw [ih, List.find?_append]
    cases hf : xs.reverse.find? (fun y => key y == k) with
    | some y => simp [hf]
    | none =>
      simp only [hf, Option.none_or, List.find?_cons, List.find?_nil]
      rw [lookup_insertKV]
      by_cases hk : key x = k
      · simp [hk]
      · have hbk : (key x == k) = false := by simp [hk]
        have hk' : ¬ (k = key x) := fun e => hk e.symm
        simp [hbk, hk']

/-- Every stored pair is keyed by its value's `item_id` (the inserts of
`write_listings_to_csv` always use that key). -/
def KeyedRight (m : List (String × CsvListing)) : Prop := ∀ p ∈ m, p.2.item_id = p.1

theorem keyedRight_insertKV {m : List (String × CsvListing)} {k : String} {v : CsvListing}
    (hm : KeyedRight m) (hv : v.item_id = k) : KeyedRight (insertKV m k v) := by
  intro p hp
  rcases List.mem_cons.mp hp with rfl | hp
  · exact hv
  · exact hm p (List.mem_of_mem_filter hp)

theorem keysNodup_insertKV {m : List (String × CsvListing)} {k : String} {v : CsvListing}
    (hm : (m.map Prod.fst).Nodup) : ((insertKV m k v).map Prod.fst).Nodup := by
  unfold insertKV
  simp only [List.map_cons]
  refine List.Nodup.cons ?_ ?_
  · intro hk
    obtain ⟨q, hq, hqk⟩ := List.mem_map.mp hk
    have hne := List.of_mem_filter hq
    simp only [ne_eq, decide_not, Bool.not_eq_true', decide_eq_false_iff_not] at hne
    exact hne hqk
  · exact List.Nodup.sublist ((List.filter_sublist m).map Prod.fst) hm

theorem keyedRight_foldl {α : Type} (key : α → String) (val : α → CsvListing)
    (hval : ∀ x, (val x).item_id = key x) :
    ∀ (l : List α) (m : List (String × CsvListing)), KeyedRight m →
      KeyedRight (l.foldl (fun acc x => insertKV acc (key x) (val x)) m) := by
  intro l
  induction l with
  | nil => intro m hm; exact hm
  | cons x xs ih =>
    intro m hm
    exact ih _ (keyedRight_insertKV hm (hval x))

theorem keysNodup_foldl {α : Type} (key : α → String) (val : α → CsvListing) :
    ∀ (l : List α) (m : List (String × CsvListing)), (m.map Prod.fst).Nodup →
      ((l.foldl (fun acc x => insertKV acc (key x) (val x)) m).map Prod.fst).Nodup := by
  intro l
  induction l with
  | nil => intro m hm; exact hm
  | cons x xs ih =>
    intro m hm
    exact ih _ (keysNodup_insertKV hm)

theorem keyedRight_mergeMap (rows : List CsvListing) (newListings : List Listing) :
    KeyedRight (mergeMap rows newListings) := by
  unfold mergeMap loadMap
  refine keyedRight_foldl (fun l => l.item_id) (fun l => csvOfListing l) (fun l => rfl)
    newListings _ ?_
  refine keyedRight_foldl (fun e => e.item_id) (fun e => e) (fun e => rfl) rows [] ?_
  intro p hp
  simp at hp

theorem keysNodup_mergeMap (rows : List CsvListing) (newListings : List Listing) :
    ((mergeMap rows newListings).map Prod.fst).Nodup := by
  unfold mergeMap loadMap
  exact keysNodup_foldl (fun l => l.item_id) (fun l => csvOfListing l) newListings _
    (keysNodup_foldl (fun e => e.item_id) (fun e => e) rows [] (by simp))

theorem find?_map_keyed {m : List (String × CsvListing)} (hm : KeyedRight m) (id : String) :
    (m.map Prod.snd).find? (fun r => r.item_id == id) = lookupKV m id := by
  unfold lookupKV
  rw [List.find?_map]
  exact congrArg (Option.map Prod.snd)
    (find?_congr_of_mem (fun p hp => by simp only [Function.comp_apply, hm p hp]))

theorem rows_ids_eq_keys {m : List (String × CsvListing)} (hm : KeyedRight m) :
    (m.map Prod.snd).map (fun r => r.item_id) = m.map Prod.fst := by
  rw [List.map_map]
  exact List.map_congr_left (fun p hp => hm p hp)

theorem mem_keys_iff_lookup (m : List (String × CsvListing)) (id : String) :
    id ∈ m.map Prod.fst ↔ (lookupKV m id).isSome := by
  unfold lookupKV
  rw [Option.isSome_map', List.find?_isSome]
  constructor
  · intro hmem
    obtain ⟨q, hq, hqk⟩ := List.mem_map.mp hmem
    exact ⟨q, hq, by simp [hqk]⟩
  · rintro ⟨q, hq, hqk⟩
    have hq1 : q.1 = id := by simpa using hqk
    exact hq1 ▸ List.mem_map_of_mem Prod.fst hq

theorem mergeMap_lookup (rows : List CsvListing) (newListings : List Listing) (id : String) :
    lookupKV (mergeMap rows newListings) id
      = match lastWith newListings id with
        | some l => some (csvOfListing l)
        | none =>
          match lastRowWith rows id with
          | some r => some r
          | none => none := by
  unfold mergeMap lastWith
  rw [lookup_foldl_insertKV]
  cases newListings.reverse.find? (fun l => l.item_id == id) with
  | some l => rfl
  | none =>
    unfold loadMap lastRowWith
    rw [lookup_foldl_insertKV]
    cases rows.reverse.find? (fun r => r.item_id == id) with
    | some r => rfl
    | none => rfl

/-- C2: the rewritten store has exactly one row per distinct `item_id`
(ids are deduplicated, and an id is present iff it occurs in the new
scrape or in the existing rows — so nothing is dropped); the row for an
id carried by the new scrape is the CSV image of the last such new
listing (last-write-wins; merging an identical listing again therefore
changes nothing); and the row for an id not in the new scrape is the
existing store's surviving row for it. -/
theorem write_listings_to_csv_spec (rows : List CsvListing) (newListings : List Listing) :
    ((write_listings_to_csv rows newListings).map (fun r => r.item_id)).Nodup ∧
    (∀ id : String, id ∈ (write_listings_to_csv rows newListings).map (fun r => r.item_id) ↔
      ((∃ l ∈ newListings, l.item_id = id) ∨ ∃ r ∈ rows, r.item_id = id)) ∧
    (∀ id : String, id ∈ (write_listings_to_csv rows newListings).map (fun r => r.item_id) →
      (write_listings_to_csv rows newListings).countP (fun r => r.item_id == id) = 1) ∧
    (∀ (id : String) (l : Listing), lastWith newListings id = some l →
      (write_listings_to_csv rows newListings).find? (fun r => r.item_id == id)
        = some (csvOfListing l)) ∧
    (∀ id : String, lastWith newListings id = none →
      (write_listings_to_csv rows newListings).find? (fun r => r.item_id == id)
        = lastRowWith rows id) := by
  have hkr := keyedRight_mergeMap rows newListings
  have hkn := keysNodup_mergeMap rows newListings
  have hids : (write_listings_to_csv rows newListings).map (fun r => r.item_id)
      = (mergeMap rows newListings).map Prod.fst := rows_ids_eq_keys hkr
  have hnodup : ((write_listings_to_csv rows newListings).map (fun r => r.item_id)).Nodup := by
    rw [hids]
    exact hkn
  refine ⟨hnodup, ?_, ?_, ?_, ?_⟩
  · intro id
    rw [hids, mem_keys_iff_lookup, mergeMap_lookup]
    constructor
    · intro hsome
      cases hw : lastWith newListings id with
      | some l =>
        rw [hw] at hsome
        have hw' : newListings.reverse.find? (fun x => x.item_id == id) = some l := hw
        have hmem : l ∈ newListings := List.mem_reverse.mp (List.mem_of_find?_eq_some hw')
        have hpred := List.find?_some hw'
        exact Or.inl ⟨l, hmem, by simpa using hpred⟩
      | none =>
        rw [hw] at hsome
        cases hr : lastRowWith rows id with
        | some r =>
          have hr' : rows.reverse.find? (fun x => x.item_id == id) = some r := hr
          have hmem : r ∈ rows := List.mem_reverse.mp (List.mem_of_find?_eq_some hr')
          have hpred := List.find?_some hr'
          exact Or.inr ⟨r, hmem, by simpa using hpred⟩
        | none =>
          rw [hr] at hsome
          simp at hsome
    · rintro (⟨l, hl, hlid⟩ | ⟨r, hr, hrid⟩)
      · have hs : (lastWith newListings id).isSome := by
          unfold lastWith
          rw [List.find?_isSome]
          exact ⟨l, List.mem_reverse.mpr hl, by simp [hlid]⟩
        cases hw : lastWith newListings id with
        | some l' => simp
        | none =>
          rw [hw] at hs
          simp at hs
      · cases hw : lastWith newListings id with
        | some l' => simp
        | none =>
          have hs : (lastRowWith rows id).isSome := by
            unfold lastRowWith
            rw [List.find?_isSome]
            exact ⟨r, List.mem_reverse.mpr hr, by simp [hrid]⟩
          cases hrr : lastRowWith rows id with
          | some r' => simp
          | none =>
            rw [hrr] at hs
            simp at hs
  · intro id hmem
    have h1 : (write_listings_to_csv rows newListings).countP (fun r => r.item_id == id)
        = ((write_listings_to_csv rows newListings).map (fun r => r.item_id)).count id := by
      rw [List.count, List.countP_map]
      rfl
    rw [h1]
    exact List.count_eq_one_of_mem hnodup hmem
  · intro id l hw
    unfold write_listings_to_csv
    rw [find?_map_keyed hkr, mergeMap_lookup, hw]
  · intro id hw
    unfold write_listings_to_csv
    rw [find?_map_keyed hkr, mergeMap_lookup, hw]
    cases hr : lastRowWith rows id <;> rfl

/-- Concrete rows for the C2 witness (the spec's scenario). -/
def csvRow111at10 : CsvListing := ⟨"widget", "111", "$10", "", ""⟩

def newListing111at12 : Listing := ⟨"widget", "111", "$12", "", ""⟩

def newListing222at5 : Listing := ⟨"gadget", "222", "$5", "", ""⟩

/-- C2 witness: merging `{111@$12, 222@$5}` into a store holding
`111@$10` yields `111` at `$12`, `222` at `$5`, one row each. -/
theorem write_listings_to_csv_spec_witness :
    (write_listings_to_csv [csvRow111at10] [newListing111at12, newListing222at5]).find?
        (fun r => r.item_id == "111") = some (csvOfListing newListing111at12) ∧
    (write_listings_to_csv [csvRow111at10] [newListing111at12, newListing222at5]).find?
        (fun r => r.item_id == "222") = some (csvOfListing newListing222at5) ∧
    (write_listings_to_csv [csvRow111at10] [newListing111at12, newListing222at5]).countP
        (fun r => r.item_id == "111") = 1 :=
  ⟨(write_listings_to_csv_spec [csvRow111at10] [newListing111at12, newListing222at5]).2.2.2.1
      "111" newListing111at12 (by decide),
   (write_listings_to_csv_spec [csvRow111at10] [newListing111at12, newListing222at5]).2.2.2.1
      "222" newListing222at5 (by decide),
   (write_listings_to_csv_spec [csvRow111at10] [newListing111at12, newListing222at5]).2.2.1
      "111" (by decide)⟩

/-! ## C10: `BrowserClient::scrape_listings` (`client.rs` lines 345-434) -/

/-- The dedup of the extraction loop (lines 353-377): `seen_ids` keeps
the first scraped item per `item_id`, later duplicates are skipped. -/
def dedupFirst : List Listing → List String → List Listing
  | [], _ => []
  | x :: xs, seen =>
    if seen.contains x.item_id then dedupFirst xs seen
    else x :: dedupFirst xs (x.item_id :: seen)

/-- The comparator of line 417:
`sort_by(|a, b| a.item_id.cmp(&b.item_id))`. -/
def listingLe (a b : Listing) : Bool := a.item_id ≤ b.item_id

/-- `BrowserClient::scrape_listings`, modelled on the already-extracted
per-item field tuples (the WebDriver round trips are I/O and do not
affect dedup or ordering).  Rust's `sort_by` is a stable sort; the
deduped list has pairwise distinct ids, so its sorted arrangement is
unique and `mergeSort` produces the same list. -/
def scrape_listings (items : List Listing) : List Listing :=
  (dedupFirst items []).mergeSort listingLe

theorem mem_dedupFirst {x : Listing} : ∀ {items : List Listing} {seen : List String},
    x ∈ dedupFirst items seen ↔
      (x.item_id ∉ seen ∧ items.find? (fun y => y.item_id == x.item_id) = some x) := by
  intro items
  induction items with
  | nil =>
    intro seen
    simp [dedupFirst]
  | cons y ys ih =>
    intro seen
    simp only [dedupFirst]
    by_cases hy : seen.contains y.item_id
    · rw [if_pos hy]
      have hymem : y.item_id ∈ seen := by simpa using hy
      rw [ih]
      constructor
      · rintro ⟨hnot, hf⟩
        have hne' : (y.item_id == x.item_id) = false :=
          beq_eq_false_iff_ne.mpr (fun he => hnot (he ▸ hymem))
        refine ⟨hnot, ?_⟩
        simp only [List.find?_cons, hne']
        exact hf
      · rintro ⟨hnot, hf⟩
        have hne' : (y.item_id == x.item_id) = false :=
          beq_eq_false_iff_ne.mpr (fun he => hnot (he ▸ hymem))
        simp only [List.find?_cons, hne'] at hf
        exact ⟨hnot, hf⟩
    · rw [if_neg hy]
      have hymem : y.item_id ∉ seen := by simpa using hy
      constructor
      · intro hx
        rcases List.mem_cons.mp hx with rfl | hx
        · refine ⟨hymem, ?_⟩
          have hpos : (x.item_id == x.item_id) = true := by simp
          simp only [List.find?_cons, hpos]
        · obtain ⟨hnot, hf⟩ := ih.mp hx
          have hx1 : x.item_id ∉ seen := fun hc => hnot (List.mem_cons_of_mem _ hc)
          have hx2 : x.item_id ≠ y.item_id := fun he => hnot (he ▸ List.mem_cons_self _ _)
          have hne' : (y.item_id == x.item_id) = false :=
            beq_eq_false_iff_ne.mpr (fun he => hx2 he.symm)
          refine ⟨hx1, ?_⟩
          simp only [List.find?_cons, hne']
          exact hf
      · rintro ⟨hnot, hf⟩
        by_cases hxy : y.item_id = x.item_id
        · have hpos : (y.item_id == x.item_id) = true := by simp [hxy]
          simp only [List.find?_cons, hpos] at hf
          have hyx : y = x := Option.some.inj hf
          exact hyx ▸ List.mem_cons_self _ _
        · have hne' : (y.item_id == x.item_id) = false := by
            simpa using hxy
          simp only [List.find?_cons, hne'] at hf
          refine List.mem_cons_of_mem _ (ih.mpr ⟨?_, hf⟩)
          intro hc
          rcases List.mem_cons.mp hc with he | hc
          · exact hxy he.symm
          · exact hnot hc

theorem dedupFirst_ids_nodup : ∀ (items : List Listing) (seen : List String),
    ((dedupFirst items seen).map (fun l => l.item_id)).Nodup := by
  intro items
  induction items with
  | nil =>
    intro seen
    simp [dedupFirst]
  | cons y ys ih =>
    intro seen
    simp only [dedupFirst]
    by_cases hy : seen.contains y.item_id
    · rw [if_pos hy]
      exact ih seen
    · rw [if_neg hy]
      simp only [List.map_cons]
      rw [List.nodup_cons]
      refine ⟨?_, ih _⟩
      intro hmem
      obtain ⟨z, hz, hzid⟩ := List.mem_map.mp hmem
      obtain ⟨hznot, _⟩ := mem_dedupFirst.mp hz
      exact hznot (hzid ▸ List.mem_cons_self _ _)

/-- C10: the returned collection has at most one listing per `item_id`
(its ids are pairwise distinct); a listing is returned iff it is the
first scraped item carrying its `item_id`; and the collection is sorted
in ascending lexicographic `item_id` order. -/
theorem scrape_listings_spec (items : List Listing) :
    ((scrape_listings items).map (fun l => l.item_id)).Nodup ∧
    (∀ x : Listing, x ∈ scrape_listings items ↔
      items.find? (fun y => y.item_id == x.item_id) = some x) ∧
    (scrape_listings items).Pairwise (fun a b => a.item_id ≤ b.item_id) := by
  have hperm : List.Perm (scrape_listings items) (dedupFirst items []) :=
    List.mergeSort_perm (dedupFirst items []) listingLe
  refine ⟨?_, ?_, ?_⟩
  · exact ((hperm.map (fun l => l.item_id)).nodup_iff).mpr (dedupFirst_ids_nodup items [])
  · intro x
    rw [hperm.mem_iff, mem_dedupFirst]
    simp
  · have htrans : ∀ (a b c : Listing), listingLe a b → listingLe b c → listingLe a c := by
      intro a b c hab hbc
      simp only [listingLe, decide_eq_true_eq] at hab hbc ⊢
      exact le_trans hab hbc
    have htotal : ∀ (a b : Listing), listingLe a b || listingLe b a := by
      intro a b
      simp only [listingLe]
      rcases le_total a.item_id b.item_id with h | h <;> simp [h]
    have hs := List.sorted_mergeSort htrans htotal (dedupFirst items [])
    exact hs.imp (fun h => by simpa [listingLe] using h)

/-- Items for the C10 witness: two scraped items sharing `item_id`. -/
def itemFirst : Listing := ⟨"first copy", "100", "$1", "0", "0"⟩

def itemDup : Listing := ⟨"later copy", "100", "$2", "0", "0"⟩

/-- C10 witness: the duplicate is dropped, the first occurrence kept. -/
theorem scrape_listings_spec_witness :
    scrape_listings [itemFirst, itemDup] = [itemFirst] ∧
      (itemFirst ∈ scrape_listings [itemFirst, itemDup] ↔
        [itemFirst, itemDup].find? (fun y => y.item_id == itemFirst.item_id)
          = some itemFirst) := by
  constructor
  · have h : dedupFirst [itemFirst, itemDup] [] = [itemFirst] := by decide
    rw [scrape_listings, h, List.mergeSort_singleton]
  · exact (scrape_listings_spec [itemFirst, itemDup]).2.1 itemFirst

end Client

end EbaySpec